import Mathlib

set_option maxHeartbeats 1000000

/-!
Shallow embedding of the Colored Petri Net monitor (src/petri of the
repository): the token/multiset model, the marking, the CPN engine with its
check-then-commit `fire`, the deterministic marking hash, and the monitor
runtime (`on_event`, `record_execution_end`, `reset`).

Rust `FxHashMap<K, V>` values are modelled as association lists
(`Fmap K V := List (K × V)`); the list order stands for the hash map's
arbitrary internal iteration order, and the well-formedness predicate `WF`
records the hash-map guarantee that keys are not duplicated.  `u64`/`u32`
and `usize` counts are modelled as `Nat` (counts only grow by addition and
shrink by checked subtraction, so no wraparound arises in the modelled
operations).
-/

namespace Petri

/-- Association-list model of `FxHashMap K V`. -/
abbrev Fmap (K V : Type) : Type := List (K × V)

namespace Fmap

variable {K V : Type} [DecidableEq K]

/-- `HashMap::get`: first entry with the given key. -/
def lookup : Fmap K V → K → Option V
  | [], _ => none
  | (k', v) :: rest, k => if k' = k then some v else lookup rest k

/-- Overwrite the value stored at an existing key (models writing through
`get_mut` / an occupied `entry`). Absent keys are left untouched. -/
def update : Fmap K V → K → V → Fmap K V
  | [], _, _ => []
  | (k', v') :: rest, k, v =>
      if k' = k then (k', v) :: rest else (k', v') :: update rest k v

/-- `HashMap::remove`: drop the entry with the given key. -/
def erase : Fmap K V → K → Fmap K V
  | [], _ => []
  | (k', v') :: rest, k => if k' = k then rest else (k', v') :: erase rest k

/-- `HashMap::insert`: overwrite if present, otherwise add a new entry. -/
def insert (m : Fmap K V) (k : K) (v : V) : Fmap K V :=
  match lookup m k with
  | some _ => update m k v
  | none => m ++ [(k, v)]

/-- `HashMap::keys`. -/
def keys (m : Fmap K V) : List K := m.map Prod.fst

/-- The hash-map representation invariant: no duplicate keys. -/
def WF (m : Fmap K V) : Prop := (keys m).Nodup

instance (m : Fmap K V) : Decidable (WF m) := by
  unfold WF; exact inferInstance

end Fmap

/-- Token types for colored Petri nets (cpn.rs, `enum Token`). -/
inductive Token : Type where
  | Tid (t : Nat)
  | Lock (l : Nat)
  | Loc (l : Nat)
  | Region (r : Nat)
  | Unit
deriving DecidableEq

/-- Multiset of tokens (cpn.rs, `struct Multiset(FxHashMap<Token, usize>)`). -/
abbrev Multiset : Type := Fmap Token Nat

namespace Multiset

/-- `Multiset::new`. -/
def new : Multiset := []

/-- `Multiset::add`: `*self.0.entry(token).or_insert(0) += count`. -/
def add (m : Multiset) (token : Token) (count : Nat) : Multiset :=
  match Fmap.lookup m token with
  | some n => Fmap.update m token (n + count)
  | none => m ++ [(token, count)]

/-- `Multiset::remove`: succeeds iff an entry with count ≥ `count` exists;
the entry is deleted when the count reaches zero.  The `Bool` is the Rust
return value. -/
def remove (m : Multiset) (token : Token) (count : Nat) : Multiset × Bool :=
  match Fmap.lookup m token with
  | some n =>
      if count ≤ n then
        if n - count = 0 then (Fmap.erase m token, true)
        else (Fmap.update m token (n - count), true)
      else (m, false)
  | none => (m, false)

/-- `Multiset::contains`: `self.0.get(token).map_or(false, |n| *n >= count)`. -/
def contains (m : Multiset) (token : Token) (count : Nat) : Bool :=
  match Fmap.lookup m token with
  | some n => decide (count ≤ n)
  | none => false

/-- `Multiset::count`: `*self.0.get(token).unwrap_or(&0)`. -/
def count (m : Multiset) (token : Token) : Nat :=
  (Fmap.lookup m token).getD 0

/-- `Multiset::is_empty`. -/
def isEmptyMs (m : Multiset) : Bool := m.isEmpty

end Multiset

/-- Marking (cpn.rs, `struct Marking(FxHashMap<PlaceId, Multiset>)`). -/
abbrev Marking : Type := Fmap String Multiset

namespace Marking

/-- `Marking::new`. -/
def new : Marking := []

/-- `Marking::add_token`: `self.0.entry(place).or_default().add(token, count)`. -/
def add_token (m : Marking) (place : String) (token : Token) (count : Nat) :
    Marking :=
  match Fmap.lookup m place with
  | some ms => Fmap.update m place (Multiset.add ms token count)
  | none => m ++ [(place, Multiset.add Multiset.new token count)]

/-- `Marking::get`. -/
def get (m : Marking) (place : String) : Option Multiset :=
  Fmap.lookup m place

/-- `Marking::get_or_insert`: `self.0.entry(place).or_default()` — ensures the
place key exists (bound to the empty multiset when absent). -/
def get_or_insert (m : Marking) (place : String) : Marking :=
  match Fmap.lookup m place with
  | some _ => m
  | none => m ++ [(place, Multiset.new)]

/-- The call `marking.get_or_insert(place).remove(&token, count)` as a state
update; the `Bool` is the value returned by `Multiset::remove`. -/
def removeAt (m : Marking) (place : String) (token : Token) (count : Nat) :
    Marking × Bool :=
  let m1 := get_or_insert m place
  let ms := (Fmap.lookup m1 place).getD Multiset.new
  let r := Multiset.remove ms token count
  (Fmap.update m1 place r.1, r.2)

/-- The call `marking.get_or_insert(place).add(token, count)` as a state
update. -/
def addAt (m : Marking) (place : String) (token : Token) (count : Nat) :
    Marking :=
  let m1 := get_or_insert m place
  let ms := (Fmap.lookup m1 place).getD Multiset.new
  Fmap.update m1 place (Multiset.add ms token count)

/-- Count of a token at a place, reading an absent place as empty. -/
def countAt (m : Marking) (place : String) (token : Token) : Nat :=
  Multiset.count ((Fmap.lookup m place).getD Multiset.new) token

/-- Hash-map well-formedness of a marking: place keys are not duplicated and
every stored multiset has non-duplicated token keys. -/
def WF (m : Marking) : Prop :=
  (Fmap.keys m).Nodup ∧ ∀ e ∈ m, (Fmap.keys (Prod.snd e)).Nodup

instance (m : Marking) : Decidable (WF m) := by
  unfold WF; exact inferInstance

end Marking

/-- Token pattern in an arc (cpn.rs, `enum ArcTokenPattern`). -/
inductive ArcTokenPattern : Type where
  | Concrete (t : Token)
  | Variable (v : String)
deriving DecidableEq

/-- Arc specification (cpn.rs, `struct ArcSpec`). -/
structure ArcSpec where
  place : String
  token : ArcTokenPattern
deriving DecidableEq

/-- Transition definition (cpn.rs, `struct Transition`). -/
structure Transition where
  id : String
  pre : List ArcSpec
  post : List ArcSpec
deriving DecidableEq

/-- Error when a transition cannot fire (cpn.rs, `struct NotEnabled`). -/
structure NotEnabled where
  transition : String
  missing : List (String × Token)
deriving DecidableEq

/-- Binding of variable names to tokens (`FxHashMap<String, Token>`). -/
abbrev Binding : Type := Fmap String Token

/-- CPN engine (cpn.rs, `struct CpnEngine`). -/
structure CpnEngine where
  transitions : Fmap String Transition
  marking : Marking
deriving DecidableEq

namespace CpnEngine

/-- `CpnEngine::new`. -/
def new : CpnEngine := { transitions := [], marking := Marking.new }

/-- `CpnEngine::add_transition`: `self.transitions.insert(t.id.clone(), t)`. -/
def add_transition (e : CpnEngine) (t : Transition) : CpnEngine :=
  { e with transitions := Fmap.insert e.transitions t.id t }

/-- `CpnEngine::set_initial_marking`. -/
def set_initial_marking (e : CpnEngine) (marking : Marking) : CpnEngine :=
  { e with marking := marking }

/-- `CpnEngine::resolve_token`. -/
def resolve_token (pattern : ArcTokenPattern) (binding : Binding) :
    Option Token :=
  match pattern with
  | .Concrete t => some t
  | .Variable v => Fmap.lookup binding v

/-- The missing entries one pre-arc contributes in the check pass of
`CpnEngine::fire` (cpn.rs lines 223–236): an unresolved variable reports the
unit token; a resolved token is reported when
`place.map_or(true, |p| !p.contains(&token, 1))`. -/
def arcMissing (marking : Marking) (binding : Binding) (arc : ArcSpec) :
    List (String × Token) :=
  match resolve_token arc.token binding with
  | none => [(arc.place, Token.Unit)]
  | some t =>
      match Fmap.lookup marking arc.place with
      | none => [(arc.place, t)]
      | some p => if Multiset.contains p t 1 then [] else [(arc.place, t)]

/-- The check pass of `CpnEngine::fire`: the `missing` vector accumulated over
the pre-arcs in order. -/
def checkPre (marking : Marking) (binding : Binding) :
    List ArcSpec → List (String × Token)
  | [] => []
  | arc :: rest => arcMissing marking binding arc ++ checkPre marking binding rest

/-- The consumption pass of `CpnEngine::fire` (cpn.rs lines 246–249):
`self.marking.get_or_insert(&arc.place).remove(&token, 1)` for each pre-arc in
order.  The `Bool` conjoins the (source-ignored) return values of the
individual `remove` calls, so that "no consumption step fails" is expressible. -/
def consumePre (marking : Marking) (binding : Binding) :
    List ArcSpec → Marking × Bool
  | [] => (marking, true)
  | arc :: rest =>
      let token := (resolve_token arc.token binding).getD Token.Unit
      let r := Marking.removeAt marking arc.place token 1
      let rec_ := consumePre r.1 binding rest
      (rec_.1, r.2 && rec_.2)

/-- The production pass of `CpnEngine::fire` (cpn.rs lines 252–256):
`self.marking.get_or_insert(&arc.place).add(token, 1)` for each post-arc. -/
def producePost (marking : Marking) (binding : Binding) :
    List ArcSpec → Marking
  | [] => marking
  | arc :: rest =>
      let token := (resolve_token arc.token binding).getD Token.Unit
      producePost (Marking.addAt marking arc.place token 1) binding rest

/-- `CpnEngine::fire`: look up the transition, run the pure check pass, and
only when nothing is missing consume the pre-arcs then produce the post-arcs.
Returns the engine state after the call together with the `Result`. -/
def fire (e : CpnEngine) (transition_id : String) (binding : Binding) :
    CpnEngine × Except NotEnabled Unit :=
  match Fmap.lookup e.transitions transition_id with
  | none => (e, .error { transition := transition_id, missing := [] })
  | some transition =>
      let missing := checkPre e.marking binding transition.pre
      if missing.isEmpty then
        let m1 := (consumePre e.marking binding transition.pre).1
        let m2 := producePost m1 binding transition.post
        ({ e with marking := m2 }, .ok ())
      else
        (e, .error { transition := transition_id, missing := missing })

end CpnEngine

/-- Multisets reachable from the empty multiset by `add` with a positive
count and arbitrary `remove` operations. -/
inductive ReachablePos : Multiset → Prop where
  | base : ReachablePos Multiset.new
  | addStep (m : Multiset) (token : Token) (count : Nat) :
      ReachablePos m → 1 ≤ count → ReachablePos (Multiset.add m token count)
  | removeStep (m : Multiset) (token : Token) (count : Nat) :
      ReachablePos m → ReachablePos (Multiset.remove m token count).1

/-- The resolved (place, token) requirement of one pre-arc: the token a
pre-arc consumes in the consumption pass
(`resolve_token(..).unwrap_or(Token::Unit)`). -/
def resolvedPair (b : Binding) (arc : ArcSpec) : String × Token :=
  (arc.place, (CpnEngine.resolve_token arc.token b).getD Token.Unit)

/-- Two markings with identical place→multiset contents: the same place keys
(up to internal storage order) and, for each place, the same token/count
entries (up to internal storage order). -/
def MarkingEquivC (a b : Marking) : Prop :=
  (Fmap.keys a).Perm (Fmap.keys b) ∧
  ∀ p ∈ Fmap.keys a, ∀ ms1 ms2, Fmap.lookup a p = some ms1 →
    Fmap.lookup b p = some ms2 → ms1.Perm ms2

/-! ## The marking hash (cpn.rs, `Marking::hash`) -/

/-- Decimal digit character, as produced by Rust's integer formatting. -/
def digitChar (d : Nat) : Char := Char.ofNat (48 + d)

/-- Character list of the decimal representation of a natural number
(Rust's `Display`/`Debug` for unsigned integers). -/
def natReprAux (n : Nat) : List Char :=
  if n < 10 then [digitChar n]
  else natReprAux (n / 10) ++ [digitChar (n % 10)]
termination_by n
decreasing_by
  exact Nat.div_lt_self (by omega) (by omega)

/-- Decimal representation of a natural number. -/
def natRepr (n : Nat) : String := String.mk (natReprAux n)

/-- Numeric value of a decimal digit character (verification tool used to
invert `natReprAux`). -/
def charVal (c : Char) : Nat := c.toNat - 48

/-- Numeric value of a decimal digit string, most significant digit first
(verification tool used to invert `natReprAux`). -/
def digitsVal (l : List Char) : Nat :=
  l.foldl (fun acc c => acc * 10 + charVal c) 0

/-- The string `format!("{:?}", token)` produced by the derived `Debug`
implementation of `Token`. -/
def tokenDebugRepr : Token → String
  | .Tid t => "Tid(" ++ natRepr t ++ ")"
  | .Lock l => "Lock(" ++ natRepr l ++ ")"
  | .Loc l => "Loc(" ++ natRepr l ++ ")"
  | .Region r => "Region(" ++ natRepr r ++ ")"
  | .Unit => "Unit"

/-- `places.sort()` in `Marking::hash`: the place keys in lexicographic
order (a stable sort, like Rust's `sort`). -/
def sortedPlaces (m : Marking) : List String :=
  List.insertionSort (fun a b : String => a ≤ b) (Fmap.keys m)

/-- The comparison used by `tokens.sort_by(|a, b| format!("{:?}", a.0).cmp(..))`. -/
def tokenLe (a b : Token × Nat) : Prop :=
  tokenDebugRepr a.1 ≤ tokenDebugRepr b.1

instance : DecidableRel tokenLe := fun a b => by
  unfold tokenLe; exact inferInstance

/-- The sorted token/count pairs of one place in `Marking::hash`. -/
def sortedTokens (ms : Multiset) : List (Token × Nat) :=
  List.insertionSort tokenLe ms

/-- One value fed to the hasher: a hashed string or a hashed count. -/
inductive HashItem : Type where
  | str (s : String)
  | num (n : Nat)
deriving DecidableEq

/-- The items `Marking::hash` feeds to the hasher for one place `p`: the
place identifier, then for each sorted token pair the token's Debug string
and its count. -/
def placeStream (m : Marking) (p : String) : List HashItem :=
  HashItem.str p ::
    ((sortedTokens ((Fmap.lookup m p).getD Multiset.new)).map
      (fun tc => [HashItem.str (tokenDebugRepr tc.1), HashItem.num tc.2])).flatten

/-- The full sequence of values fed to the `DefaultHasher` by `Marking::hash`
(cpn.rs lines 151–168): for each place in sorted order, its identifier
followed by its sorted token reprs and counts. -/
def Marking.hashStream (m : Marking) : List HashItem :=
  ((sortedPlaces m).map (placeStream m)).flatten

/-- Stand-in for the byte-level hashing a `String` performs inside
`DefaultHasher`: a concrete deterministic accumulator, reduced mod 2^64. -/
def stringCode (s : String) : Nat :=
  s.data.foldl (fun h c => (h * 313 + c.toNat + 1) % 2 ^ 64) 7

/-- Stand-in for `DefaultHasher` (SipHash-1-3): a concrete deterministic
64-bit fold of the hashed items.  Every property proved about `Marking.hash`
depends only on the accumulator being a deterministic function of the item
stream, which is all the source relies on as well. -/
def hashCombine (h : Nat) : HashItem → Nat
  | .str s => (h * 1099511628211 + stringCode s) % 2 ^ 64
  | .num n => (h * 1099511628211 + n + 13) % 2 ^ 64

/-- `Marking::hash`: fold the deterministic item stream through the hasher. -/
def Marking.hash (m : Marking) : Nat :=
  (Marking.hashStream m).foldl hashCombine 14695981039346656037 % 2 ^ 64

/-- `CpnEngine::marking_hash`. -/
def CpnEngine.marking_hash (e : CpnEngine) : Nat := Marking.hash e.marking

/-! ## Events (event.rs) -/

/-- Protocol-layer events (event.rs, `enum PetriEvent`). -/
inductive PetriEvent : Type where
  | ThreadSpawn (parent child : Nat)
  | ThreadJoin (joiner joinee : Nat)
  | Yield (tid : Nat)
  | Block (tid : Nat) (reason : String)
  | Wake (tid : Nat)
  | LockAcquire (tid : Nat) (lock_id : Nat)
  | LockRelease (tid : Nat) (lock_id : Nat)
  | AtomicLoad (tid : Nat) (loc_id : Nat) (ordering : String)
  | AtomicStore (tid : Nat) (loc_id : Nat) (ordering : String)
  | UnsafeRead (tid : Nat) (region_id : Nat) (size : Nat)
  | UnsafeWrite (tid : Nat) (region_id : Nat) (size : Nat)
deriving DecidableEq

namespace PetriEvent

/-- `PetriEvent::tid`. -/
def tid : PetriEvent → Nat
  | .ThreadSpawn parent _ => parent
  | .ThreadJoin joiner _ => joiner
  | .Yield t => t
  | .Block t _ => t
  | .Wake t => t
  | .LockAcquire t _ => t
  | .LockRelease t _ => t
  | .AtomicLoad t _ _ => t
  | .AtomicStore t _ _ => t
  | .UnsafeRead t _ _ => t
  | .UnsafeWrite t _ _ => t

/-- `PetriEvent::object_id`. -/
def object_id : PetriEvent → Option Nat
  | .LockAcquire _ lock_id => some lock_id
  | .LockRelease _ lock_id => some lock_id
  | .AtomicLoad _ loc_id _ => some loc_id
  | .AtomicStore _ loc_id _ => some loc_id
  | .UnsafeRead _ region_id _ => some region_id
  | .UnsafeWrite _ region_id _ => some region_id
  | _ => none

/-- `PetriEvent::event_type_name`. -/
def event_type_name : PetriEvent → String
  | .ThreadSpawn _ _ => "ThreadSpawn"
  | .ThreadJoin _ _ => "ThreadJoin"
  | .Yield _ => "Yield"
  | .Block _ _ => "Block"
  | .Wake _ => "Wake"
  | .LockAcquire _ _ => "LockAcquire"
  | .LockRelease _ _ => "LockRelease"
  | .AtomicLoad _ _ _ => "AtomicLoad"
  | .AtomicStore _ _ _ => "AtomicStore"
  | .UnsafeRead _ _ _ => "UnsafeRead"
  | .UnsafeWrite _ _ _ => "UnsafeWrite"

end PetriEvent

/-! ## Diagnostics and runtime (diagnostic.rs, config.rs, runtime.rs) -/

/-- Source location info (diagnostic.rs, `struct SpanLike`). -/
structure SpanLike where
  file : String
  line : Nat
  column : Nat
deriving DecidableEq

/-- A detected protocol violation (diagnostic.rs, `struct PetriViolation`). -/
structure PetriViolation where
  event : PetriEvent
  tid : Nat
  object_id : Option Nat
  span : Option SpanLike
  missing_tokens : List (String × Token)
  current_marking : Marking
deriving DecidableEq

/-- Monitor configuration (config.rs, `struct PetriConfig`); the definition
file path is modelled as a plain string. -/
structure PetriConfig where
  config_path : String
  log_path : Option String
  fail_fast : Bool
  print_marking_on_each_event : Bool
deriving DecidableEq

/-- Runtime state (runtime.rs, `struct PetriRuntime`).  The `HashSet<u64>` of
seen marking hashes is modelled as a duplicate-free list built by
insert-if-absent; the optional `BufWriter<File>` log sink is modelled as the
list of records written so far (`none` when no sink is configured). -/
structure PetriRuntime where
  engine : CpnEngine
  config : PetriConfig
  event_mapping : Fmap String String
  initial_marking : Marking
  seen_markings : List Nat
  log_file : Option (List (PetriEvent × Nat))
deriving DecidableEq

namespace PetriRuntime

/-- `PetriRuntime::get_transition_for_event` (runtime.rs lines 230–240): the
explicit mapping wins; otherwise the two hard-coded fallbacks apply. -/
def get_transition_for_event (r : PetriRuntime) (e : PetriEvent) :
    Option String :=
  match Fmap.lookup r.event_mapping e.event_type_name with
  | some t => some t
  | none =>
      match e.event_type_name with
      | "LockAcquire" => some "acquire"
      | "LockRelease" => some "release"
      | _ => none

/-- `PetriRuntime::make_binding` (runtime.rs lines 242–255). -/
def make_binding (e : PetriEvent) : Binding :=
  let binding : Binding := Fmap.insert [] "tid" (Token.Tid e.tid)
  match e with
  | .LockAcquire _ lock_id => Fmap.insert binding "L" (Token.Lock lock_id)
  | .LockRelease _ lock_id => Fmap.insert binding "L" (Token.Lock lock_id)
  | .AtomicLoad _ loc_id _ => Fmap.insert binding "loc" (Token.Loc loc_id)
  | .AtomicStore _ loc_id _ => Fmap.insert binding "loc" (Token.Loc loc_id)
  | _ => binding

/-- The lazy-seeding step of `on_event` (runtime.rs lines 183–192): when the
resolved transition is "acquire" and the binding's "L" token is a lock not
present in the "free" place, synthesize it there. -/
def seedStep (r : PetriRuntime) (transition_id : String) (binding : Binding) :
    PetriRuntime :=
  if transition_id = "acquire" then
    match Fmap.lookup binding "L" with
    | some (Token.Lock lock_id) =>
        let marking := r.engine.marking
        let missingFree :=
          match Fmap.lookup marking "free" with
          | none => true
          | some m => !(Multiset.contains m (Token.Lock lock_id) 1)
        if missingFree then
          { r with engine := { r.engine with
              marking := Marking.addAt marking "free" (Token.Lock lock_id) 1 } }
        else r
    | _ => r
  else r

/-- `PetriRuntime::on_event` (runtime.rs lines 166–228).  The source's
`match self.config.config_path.extension()` has two identical arms, so it is
modelled as the single call it performs; the debug `eprintln!` has no state
effect and is omitted. -/
def on_event (r : PetriRuntime) (e : PetriEvent) (span : Option SpanLike) :
    PetriRuntime × Except PetriViolation Unit :=
  match get_transition_for_event r e with
  | none => (r, .ok ())
  | some transition_id =>
      let binding := make_binding e
      let r1 := seedStep r transition_id binding
      let fr := CpnEngine.fire r1.engine transition_id binding
      let r2 := { r1 with engine := fr.1 }
      match fr.2 with
      | .error not_enabled =>
          (r2, .error {
            event := e, tid := e.tid, object_id := e.object_id, span := span,
            missing_tokens := not_enabled.missing,
            current_marking := r2.engine.marking })
      | .ok _ =>
          let r3 :=
            match r2.log_file with
            | some recs =>
                let recs2 := recs ++ [(e, CpnEngine.marking_hash r2.engine)]
                { r2 with log_file := some recs2 }
            | none => r2
          (r3, .ok ())

/-- `PetriRuntime::record_execution_end` (runtime.rs lines 258–262):
`HashSet::insert` reports whether the hash was previously unseen. -/
def record_execution_end (r : PetriRuntime) : PetriRuntime × Nat × Bool :=
  let hash := CpnEngine.marking_hash r.engine
  if hash ∈ r.seen_markings then (r, hash, false)
  else ({ r with seen_markings := r.seen_markings ++ [hash] }, hash, true)

/-- `PetriRuntime::reset` (runtime.rs lines 265–268): clears `seen_markings`
and restores the marking to the original initial marking. -/
def reset (r : PetriRuntime) : PetriRuntime :=
  let r1 := { r with seen_markings := [] }
  { r1 with engine := CpnEngine.set_initial_marking r1.engine r.initial_marking }

/-- `PetriRuntime::seen_markings_count`. -/
def seen_markings_count (r : PetriRuntime) : Nat := r.seen_markings.length

end PetriRuntime

/-! ## Association-list lemmas -/

namespace Fmap

variable {K V : Type} [DecidableEq K]

theorem lookup_append_left {m m' : Fmap K V} {k : K} {v : V}
    (h : lookup m k = some v) : lookup (m ++ m') k = some v := by
  induction m with
  | nil => simp [lookup] at h
  | cons e rest ih =>
      obtain ⟨k', v'⟩ := e
      by_cases hk : k' = k <;> simp [lookup, hk] at h ⊢ <;> simp_all

theorem lookup_append_right {m m' : Fmap K V} {k : K}
    (h : lookup m k = none) : lookup (m ++ m') k = lookup m' k := by
  induction m with
  | nil => simp [lookup]
  | cons e rest ih =>
      obtain ⟨k', v'⟩ := e
      by_cases hk : k' = k <;> simp [lookup, hk] at h ⊢ <;> simp_all

theorem lookup_mem {m : Fmap K V} {k : K} {v : V}
    (h : lookup m k = some v) : (k, v) ∈ m := by
  induction m with
  | nil => simp [lookup] at h
  | cons e rest ih =>
      obtain ⟨k', v'⟩ := e
      by_cases hk : k' = k <;> simp [lookup, hk] at h <;> simp_all

theorem lookup_eq_none_iff {m : Fmap K V} {k : K} :
    lookup m k = none ↔ k ∉ keys m := by
  induction m with
  | nil => simp [lookup, keys]
  | cons e rest ih =>
      obtain ⟨k', v'⟩ := e
      by_cases hk : k' = k
      · subst hk
        simp [lookup, keys]
      · simp only [lookup, if_neg hk, keys, List.map_cons, List.mem_cons]
        rw [ih]
        constructor
        · intro h hc
          rcases hc with hc | hc
          · exact hk hc.symm
          · exact h hc
        · intro h hc
          exact h (Or.inr hc)

theorem lookup_update_self {m : Fmap K V} {k : K} {w : V} (v : V)
    (h : lookup m k = some w) : lookup (update m k v) k = some v := by
  induction m with
  | nil => simp [lookup] at h
  | cons e rest ih =>
      obtain ⟨k', v'⟩ := e
      by_cases hk : k' = k <;> simp [lookup, update, hk] at h ⊢ <;> simp_all

theorem lookup_update_ne {m : Fmap K V} {k k' : K} (v : V) (h : k' ≠ k) :
    lookup (update m k v) k' = lookup m k' := by
  induction m with
  | nil => simp [update]
  | cons e rest ih =>
      obtain ⟨k0, v0⟩ := e
      by_cases hk : k0 = k
      · subst hk
        simp [update, lookup, Ne.symm h]
      · simp only [update, if_neg hk, lookup]
        by_cases hk' : k0 = k' <;> simp [hk', ih]

theorem lookup_erase_ne {m : Fmap K V} {k k' : K} (h : k' ≠ k) :
    lookup (erase m k) k' = lookup m k' := by
  induction m with
  | nil => simp [erase]
  | cons e rest ih =>
      obtain ⟨k0, v0⟩ := e
      by_cases hk : k0 = k
      · subst hk
        simp [erase, lookup, Ne.symm h]
      · simp only [erase, if_neg hk, lookup]
        by_cases hk' : k0 = k' <;> simp [hk', ih]

theorem keys_update (m : Fmap K V) (k : K) (v : V) :
    keys (update m k v) = keys m := by
  induction m with
  | nil => rfl
  | cons e rest ih =>
      obtain ⟨k0, v0⟩ := e
      by_cases hk : k0 = k
      · simp [update, hk, keys]
      · simp only [update, if_neg hk, keys, List.map_cons]
        unfold keys at ih
        rw [ih]

theorem keys_erase_sublist (m : Fmap K V) (k : K) :
    (keys (erase m k)).Sublist (keys m) := by
  induction m with
  | nil => simp [erase]
  | cons e rest ih =>
      obtain ⟨k0, v0⟩ := e
      by_cases hk : k0 = k
      · simp only [erase, if_pos hk, keys, List.map_cons]
        exact List.sublist_cons_self _ _
      · simp only [erase, if_neg hk, keys, List.map_cons]
        exact ih.cons₂ _

theorem lookup_erase_self {m : Fmap K V} {k : K} (hwf : WF m) :
    lookup (erase m k) k = none := by
  induction m with
  | nil => simp [erase, lookup]
  | cons e rest ih =>
      obtain ⟨k0, v0⟩ := e
      unfold WF keys at hwf
      simp only [List.map_cons, List.nodup_cons] at hwf
      by_cases hk : k0 = k
      · simp only [erase, if_pos hk]
        rw [lookup_eq_none_iff, ← hk]
        exact hwf.1
      · simp only [erase, if_neg hk, lookup, if_neg fun hc => hk hc]
        exact ih hwf.2

theorem mem_update {m : Fmap K V} {k : K} {v : V} {e : K × V}
    (h : e ∈ update m k v) : e ∈ m ∨ e = (k, v) := by
  induction m with
  | nil => simp [update] at h
  | cons e0 rest ih =>
      obtain ⟨k0, v0⟩ := e0
      by_cases hk : k0 = k
      · subst hk
        simp only [update, if_pos rfl] at h
        rcases List.mem_cons.mp h with rfl | h
        · right; rfl
        · left; exact List.mem_cons_of_mem _ h
      · simp only [update, if_neg hk] at h
        rcases List.mem_cons.mp h with rfl | h
        · left; exact List.mem_cons_self _ _
        · rcases ih h with h' | h'
          · left; exact List.mem_cons_of_mem _ h'
          · right; exact h'

theorem mem_erase {m : Fmap K V} {k : K} {e : K × V}
    (h : e ∈ erase m k) : e ∈ m := by
  induction m with
  | nil => simp [erase] at h
  | cons e0 rest ih =>
      obtain ⟨k0, v0⟩ := e0
      by_cases hk : k0 = k
      · simp only [erase, if_pos hk] at h
        exact List.mem_cons_of_mem _ h
      · simp only [erase, if_neg hk] at h
        rcases List.mem_cons.mp h with rfl | h
        · exact List.mem_cons_self _ _
        · exact List.mem_cons_of_mem _ (ih h)

theorem wf_update {m : Fmap K V} (k : K) (v : V) (hwf : WF m) :
    WF (update m k v) := by
  unfold WF
  rw [keys_update]; exact hwf

theorem wf_erase {m : Fmap K V} (k : K) (hwf : WF m) : WF (erase m k) :=
  (keys_erase_sublist m k).nodup hwf

theorem wf_append_new {m : Fmap K V} {k : K} (v : V) (hwf : WF m)
    (h : lookup m k = none) : WF (m ++ [(k, v)]) := by
  unfold WF keys at hwf ⊢
  rw [List.map_append]
  simp only [List.map_cons, List.map_nil]
  rw [List.nodup_append]
  refine ⟨hwf, List.nodup_singleton _, ?_⟩
  intro a ha hb
  simp at hb
  subst hb
  exact (lookup_eq_none_iff.mp h) ha

end Fmap

/-! ## Multiset lemmas -/

theorem remove_lookup_none {m : Multiset} {token : Token} {count : Nat}
    (hl : Fmap.lookup m token = none) :
    Multiset.remove m token count = (m, false) := by
  unfold Multiset.remove; rw [hl]

theorem remove_lookup_some {m : Multiset} {token : Token} {count n : Nat}
    (hl : Fmap.lookup m token = some n) :
    Multiset.remove m token count =
      if count ≤ n then
        if n - count = 0 then (Fmap.erase m token, true)
        else (Fmap.update m token (n - count), true)
      else (m, false) := by
  unfold Multiset.remove; rw [hl]

theorem add_lookup_none {m : Multiset} {token : Token} {count : Nat}
    (hl : Fmap.lookup m token = none) :
    Multiset.add m token count = m ++ [(token, count)] := by
  unfold Multiset.add; rw [hl]

theorem add_lookup_some {m : Multiset} {token : Token} {count n : Nat}
    (hl : Fmap.lookup m token = some n) :
    Multiset.add m token count = Fmap.update m token (n + count) := by
  unfold Multiset.add; rw [hl]

/-! ## C1: a rejected firing performs no mutation -/

theorem fire_error_fst {e : CpnEngine} {transition_id : String}
    {b : Binding} {ne : NotEnabled}
    (h : (CpnEngine.fire e transition_id b).2 = Except.error ne) :
    (CpnEngine.fire e transition_id b).1 = e := by
  unfold CpnEngine.fire at h ⊢
  cases hl : Fmap.lookup e.transitions transition_id with
  | none => simp [hl]
  | some t =>
      simp only [hl] at h ⊢
      cases hm : (CpnEngine.checkPre e.marking b t.pre).isEmpty with
      | true => simp [hm] at h
      | false => simp [hm]

/-- C1: whenever `CpnEngine::fire` returns `Err(NotEnabled)` — because the
transition is unknown or because tokens are missing — the engine after the
call equals the engine before it, bit for bit; in particular the marking is
untouched. -/
theorem fire_error_preserves_engine (e : CpnEngine) (transition_id : String)
    (b : Binding) (ne : NotEnabled)
    (h : (CpnEngine.fire e transition_id b).2 = Except.error ne) :
    (CpnEngine.fire e transition_id b).1 = e :=
  fire_error_fst h

/-- Witness for C1 at a concrete failing firing (unknown transition on the
fresh engine). -/
theorem fire_error_preserves_engine_witness :
    (CpnEngine.fire CpnEngine.new "acquire" []).2 =
      Except.error { transition := "acquire", missing := [] } ∧
    (CpnEngine.fire CpnEngine.new "acquire" []).1 = CpnEngine.new :=
  ⟨rfl, fire_error_preserves_engine _ _ _
    { transition := "acquire", missing := [] } rfl⟩

/-! ## C4: no zero-count entry is ever stored -/

theorem reachablePos_entries_pos {m : Multiset} (h : ReachablePos m) :
    ∀ e ∈ m, 0 < e.2 := by
  induction h with
  | base => intro e he; simp [Multiset.new] at he
  | addStep m token count hr hc ih =>
      intro e he
      cases hl : Fmap.lookup m token with
      | some n =>
          rw [add_lookup_some hl] at he
          rcases Fmap.mem_update he with h' | rfl
          · exact ih e h'
          · simp only
            omega
      | none =>
          rw [add_lookup_none hl] at he
          rcases List.mem_append.mp he with h' | h'
          · exact ih e h'
          · simp only [List.mem_singleton] at h'
            subst h'
            simpa using hc
  | removeStep m token count hr ih =>
      intro e he
      cases hl : Fmap.lookup m token with
      | some n =>
          rw [remove_lookup_some hl] at he
          by_cases hc : count ≤ n
          · rw [if_pos hc] at he
            by_cases h0 : n - count = 0
            · rw [if_pos h0] at he
              exact ih e (Fmap.mem_erase he)
            · rw [if_neg h0] at he
              rcases Fmap.mem_update he with h' | rfl
              · exact ih e h'
              · simpa using Nat.pos_of_ne_zero h0
          · rw [if_neg hc] at he
            exact ih e he
      | none =>
          rw [remove_lookup_none hl] at he
          exact ih e he

/-- C4 (amended): starting from the empty multiset, under `add` operations
with positive counts and arbitrary `remove` operations, the underlying map
never stores an entry with count zero (counts that reach zero are deleted).
The claim's allowance of `add(t, 0)` is refuted by
`multiset_add_zero_stores_zero_entry`. -/
theorem multiset_no_zero_entries (m : Multiset) (t : Token)
    (h : ReachablePos m) : Fmap.lookup m t ≠ some 0 := by
  intro hl
  have hp := reachablePos_entries_pos h _ (Fmap.lookup_mem hl)
  simp at hp

/-- Witness for C4's amended theorem at a concrete reachable multiset. -/
theorem multiset_no_zero_entries_witness :
    Fmap.lookup (Multiset.add Multiset.new (Token.Lock 1) 2) (Token.Lock 1) ≠
      some 0 :=
  multiset_no_zero_entries _ _
    (ReachablePos.addStep _ _ _ ReachablePos.base (by omega))

/-- Counterexample to C4 as stated: with count n = 0 allowed, `add(t, 0)` on
an absent token stores an entry with count zero. -/
theorem multiset_add_zero_stores_zero_entry :
    Fmap.lookup (Multiset.add Multiset.new Token.Unit 0) Token.Unit =
      some 0 := by decide

/-! ## C6: the `remove` contract -/

/-- C6 (amended): `remove(t, n)` returns true iff the map stores an entry for
t with count ≥ n (for n ≥ 1 this coincides with "stored count ≥ n, absent
meaning zero", but `remove(t, 0)` on an absent token returns false); on
success the count of t drops by n, the entry is deleted when the result is
zero, and other tokens are untouched; on failure the multiset is unchanged. -/
theorem multiset_remove_spec (m : Multiset) (t : Token) (n : Nat)
    (hwf : Fmap.WF m) :
    ((Multiset.remove m t n).2 = true ↔
        ∃ c, Fmap.lookup m t = some c ∧ n ≤ c) ∧
    ((Multiset.remove m t n).2 = true →
        Multiset.count (Multiset.remove m t n).1 t = Multiset.count m t - n ∧
        (Multiset.count m t - n = 0 →
            Fmap.lookup (Multiset.remove m t n).1 t = none) ∧
        ∀ t2, t2 ≠ t →
          Multiset.count (Multiset.remove m t n).1 t2 = Multiset.count m t2) ∧
    ((Multiset.remove m t n).2 = false → (Multiset.remove m t n).1 = m) := by
  cases hl : Fmap.lookup m t with
  | none =>
      rw [remove_lookup_none hl]
      simp [hl]
  | some c =>
      rw [remove_lookup_some hl]
      by_cases hc : n ≤ c
      · rw [if_pos hc]
        by_cases h0 : c - n = 0
        · rw [if_pos h0]
          refine ⟨by simp [hl, hc], fun _ => ⟨?_, fun _ => ?_, fun t2 ht2 => ?_⟩,
            by simp⟩
          · have hnone := Fmap.lookup_erase_self (m := m) (k := t) hwf
            simp [Multiset.count, hnone, hl, h0]
          · exact Fmap.lookup_erase_self hwf
          · simp [Multiset.count, Fmap.lookup_erase_ne ht2]
        · rw [if_neg h0]
          refine ⟨by simp [hl, hc], fun _ => ⟨?_, fun habs => ?_, fun t2 ht2 => ?_⟩,
            by simp⟩
          · have hup := Fmap.lookup_update_self (c - n) hl
            simp [Multiset.count, hup, hl]
          · rw [Multiset.count, hl] at habs
            exact absurd habs h0
          · simp [Multiset.count, Fmap.lookup_update_ne _ ht2]
      · rw [if_neg hc]
        simp [hl, hc]

/-- Witness for C6's amended theorem at a concrete multiset. -/
theorem multiset_remove_spec_witness :
    ((Multiset.remove [(Token.Lock 5, 2)] (Token.Lock 5) 1).2 = true ↔
        ∃ c, Fmap.lookup [(Token.Lock 5, 2)] (Token.Lock 5) = some c ∧ 1 ≤ c) ∧
    ((Multiset.remove [(Token.Lock 5, 2)] (Token.Lock 5) 1).2 = true →
        Multiset.count (Multiset.remove [(Token.Lock 5, 2)] (Token.Lock 5) 1).1
            (Token.Lock 5) =
          Multiset.count [(Token.Lock 5, 2)] (Token.Lock 5) - 1 ∧
        (Multiset.count [(Token.Lock 5, 2)] (Token.Lock 5) - 1 = 0 →
            Fmap.lookup (Multiset.remove [(Token.Lock 5, 2)] (Token.Lock 5) 1).1
              (Token.Lock 5) = none) ∧
        ∀ t2, t2 ≠ Token.Lock 5 →
          Multiset.count (Multiset.remove [(Token.Lock 5, 2)] (Token.Lock 5) 1).1
              t2 =
            Multiset.count [(Token.Lock 5, 2)] t2) ∧
    ((Multiset.remove [(Token.Lock 5, 2)] (Token.Lock 5) 1).2 = false →
        (Multiset.remove [(Token.Lock 5, 2)] (Token.Lock 5) 1).1 =
          [(Token.Lock 5, 2)]) :=
  multiset_remove_spec [(Token.Lock 5, 2)] (Token.Lock 5) 1 (by decide)

/-- Counterexample to C6 as stated: removing zero units of an absent token
returns false even though the stored count (zero, absent counting as zero)
is ≥ n = 0. -/
theorem multiset_remove_zero_absent_returns_false :
    (Multiset.remove Multiset.new Token.Unit 0).2 = false ∧
    0 ≤ Multiset.count Multiset.new Token.Unit := by decide

/-! ## C3: the check pass versus the consumption pass -/

theorem contains_one_iff {ms : Multiset} {t : Token} :
    Multiset.contains ms t 1 = true ↔ 1 ≤ Multiset.count ms t := by
  unfold Multiset.contains Multiset.count
  cases Fmap.lookup ms t <;> simp

theorem remove_true_iff {ms : Multiset} {t : Token} {n : Nat} :
    (Multiset.remove ms t n).2 = true ↔
      ∃ c, Fmap.lookup ms t = some c ∧ n ≤ c := by
  cases hl : Fmap.lookup ms t with
  | none => rw [remove_lookup_none hl]; simp
  | some c =>
      rw [remove_lookup_some hl]
      by_cases hc : n ≤ c
      · rw [if_pos hc]
        by_cases h0 : c - n = 0 <;> simp [h0, hl, hc]
      · rw [if_neg hc]
        simp [hl, hc]

theorem count_remove_ne {ms : Multiset} {t t' : Token} {n : Nat}
    (ht : t' ≠ t) :
    Multiset.count (Multiset.remove ms t n).1 t' = Multiset.count ms t' := by
  cases hl : Fmap.lookup ms t with
  | none => rw [remove_lookup_none hl]
  | some c =>
      rw [remove_lookup_some hl]
      by_cases hc : n ≤ c
      · rw [if_pos hc]
        by_cases h0 : c - n = 0
        · rw [if_pos h0]
          simp [Multiset.count, Fmap.lookup_erase_ne ht]
        · rw [if_neg h0]
          simp [Multiset.count, Fmap.lookup_update_ne _ ht]
      · rw [if_neg hc]

theorem lookup_get_or_insert_self (m : Marking) (p : String) :
    Fmap.lookup (Marking.get_or_insert m p) p =
      some ((Fmap.lookup m p).getD Multiset.new) := by
  unfold Marking.get_or_insert
  cases hl : Fmap.lookup m p with
  | some ms => simp [hl]
  | none =>
      simp only [Option.getD_none]
      rw [Fmap.lookup_append_right hl]
      simp [Fmap.lookup]

theorem lookup_get_or_insert_ne {m : Marking} {p p' : String} (h : p' ≠ p) :
    Fmap.lookup (Marking.get_or_insert m p) p' = Fmap.lookup m p' := by
  unfold Marking.get_or_insert
  cases hl : Fmap.lookup m p with
  | some ms => rfl
  | none =>
      cases hl' : Fmap.lookup m p' with
      | some v => exact Fmap.lookup_append_left hl'
      | none =>
          rw [Fmap.lookup_append_right hl']
          simp [Fmap.lookup, Ne.symm h]

theorem removeAt_eq (m : Marking) (p : String) (t : Token) (n : Nat) :
    Marking.removeAt m p t n =
      (Fmap.update (Marking.get_or_insert m p) p
          (Multiset.remove ((Fmap.lookup m p).getD Multiset.new) t n).1,
        (Multiset.remove ((Fmap.lookup m p).getD Multiset.new) t n).2) := by
  unfold Marking.removeAt
  dsimp only
  rw [lookup_get_or_insert_self]
  simp

theorem removeAt_one_true_iff {m : Marking} {p : String} {t : Token} :
    (Marking.removeAt m p t 1).2 = true ↔ 1 ≤ Marking.countAt m p t := by
  rw [removeAt_eq]
  simp only
  rw [remove_true_iff]
  unfold Marking.countAt Multiset.count
  cases Fmap.lookup ((Fmap.lookup m p).getD Multiset.new) t <;> simp

theorem countAt_removeAt_other {m : Marking} {p p' : String} {t t' : Token}
    {n : Nat} (h : (p, t) ≠ (p', t')) :
    Marking.countAt (Marking.removeAt m p t n).1 p' t' =
      Marking.countAt m p' t' := by
  rw [removeAt_eq]
  simp only
  by_cases hp : p' = p
  · subst hp
    have ht : t' ≠ t := by
      intro hc; exact h (by rw [hc])
    unfold Marking.countAt
    rw [Fmap.lookup_update_self _ (lookup_get_or_insert_self m p')]
    simp only [Option.getD_some]
    exact count_remove_ne ht
  · unfold Marking.countAt
    rw [Fmap.lookup_update_ne _ hp, lookup_get_or_insert_ne hp]

theorem checkPre_nil_counts {m : Marking} {b : Binding} {pre : List ArcSpec}
    (hck : CpnEngine.checkPre m b pre = []) :
    ∀ arc ∈ pre, 1 ≤ Marking.countAt m arc.place
      ((CpnEngine.resolve_token arc.token b).getD Token.Unit) := by
  induction pre with
  | nil => simp
  | cons arc rest ih =>
      rw [CpnEngine.checkPre] at hck
      rcases List.append_eq_nil.mp hck with ⟨hhd, htl⟩
      intro a ha
      rcases List.mem_cons.mp ha with rfl | ha
      · unfold CpnEngine.arcMissing at hhd
        cases hr : CpnEngine.resolve_token a.token b with
        | none => simp [hr] at hhd
        | some tk =>
            cases hl : Fmap.lookup m a.place with
            | none => simp [hr, hl] at hhd
            | some pm =>
                simp only [hr, hl] at hhd
                by_cases hcont : Multiset.contains pm tk 1
                · have h1 := contains_one_iff.mp hcont
                  simpa [Marking.countAt, hr, hl] using h1
                · simp [hcont] at hhd
      · exact ih htl a ha

theorem consumePre_ok_of_counts (b : Binding) (pre : List ArcSpec) :
    ∀ m : Marking,
      (∀ arc ∈ pre, 1 ≤ Marking.countAt m arc.place
        ((CpnEngine.resolve_token arc.token b).getD Token.Unit)) →
      (pre.map (resolvedPair b)).Nodup →
      (CpnEngine.consumePre m b pre).2 = true := by
  induction pre with
  | nil => intro m _ _; rfl
  | cons arc rest ih =>
      intro m hcnt hnd
      rw [List.map_cons, List.nodup_cons] at hnd
      rw [CpnEngine.consumePre]
      dsimp only
      rw [Bool.and_eq_true]
      refine ⟨removeAt_one_true_iff.mpr (hcnt arc (List.mem_cons_self _ _)), ?_⟩
      refine ih ((Marking.removeAt m arc.place
          ((CpnEngine.resolve_token arc.token b).getD Token.Unit) 1).1) ?_ hnd.2
      intro a ha
      have hne : (arc.place,
            (CpnEngine.resolve_token arc.token b).getD Token.Unit) ≠
          (a.place, (CpnEngine.resolve_token a.token b).getD Token.Unit) := by
        intro hc
        apply hnd.1
        rw [show resolvedPair b arc = resolvedPair b a from hc]
        exact List.mem_map_of_mem (resolvedPair b) ha
      rw [countAt_removeAt_other hne]
      exact hcnt a (List.mem_cons_of_mem _ ha)

/-- C3 (amended): for a registered transition whose pre-arcs resolve — under
the given binding — to pairwise distinct (place, token) requirements, if the
check pass of `fire` reports no missing tokens then every one-unit `remove`
performed in the consumption pass returns true.  With duplicated
requirements the claim fails (`duplicate_pre_arc_consumption_fails`). -/
theorem fire_consumption_never_fails (e : CpnEngine) (transition_id : String)
    (b : Binding) (t : Transition)
    (ht : Fmap.lookup e.transitions transition_id = some t)
    (hck : CpnEngine.checkPre e.marking b t.pre = [])
    (hnd : (t.pre.map (resolvedPair b)).Nodup) :
    (CpnEngine.consumePre e.marking b t.pre).2 = true :=
  consumePre_ok_of_counts b t.pre e.marking (checkPre_nil_counts hck) hnd

/-- Witness for C3's amended theorem at a concrete engine and binding. -/
theorem fire_consumption_never_fails_witness :
    (CpnEngine.consumePre [("free", [(Token.Lock 1, 1)])] []
        [⟨"free", ArcTokenPattern.Concrete (Token.Lock 1)⟩]).2 = true :=
  fire_consumption_never_fails
    { transitions :=
        [("t1", { id := "t1",
                  pre := [⟨"free", ArcTokenPattern.Concrete (Token.Lock 1)⟩],
                  post := [] })],
      marking := [("free", [(Token.Lock 1, 1)])] }
    "t1" []
    { id := "t1", pre := [⟨"free", ArcTokenPattern.Concrete (Token.Lock 1)⟩],
      post := [] }
    (by decide) (by decide) (by decide)

/-- Counterexample to C3 as stated: a transition with the same pre-arc twice.
The check pass inspects each arc independently against the unmodified marking
and reports nothing missing, yet during consumption the second `remove` of
the same token from the same place returns false. -/
theorem duplicate_pre_arc_consumption_fails :
    CpnEngine.checkPre [("p", [(Token.Unit, 1)])] []
        [⟨"p", ArcTokenPattern.Concrete Token.Unit⟩,
          ⟨"p", ArcTokenPattern.Concrete Token.Unit⟩] = [] ∧
    (CpnEngine.consumePre [("p", [(Token.Unit, 1)])] []
        [⟨"p", ArcTokenPattern.Concrete Token.Unit⟩,
          ⟨"p", ArcTokenPattern.Concrete Token.Unit⟩]).2 = false := by decide

/-! ## C10: a successful fire deletes no place key; the hash covers all keys -/

theorem mem_keys_of_lookup {K V : Type} [DecidableEq K] {m : Fmap K V}
    {k : K} {v : V} (h : Fmap.lookup m k = some v) : k ∈ Fmap.keys m := by
  by_contra hk
  rw [Fmap.lookup_eq_none_iff.mpr hk] at h
  cases h

theorem keys_get_or_insert_superset {m : Marking} (p : String) {k : String}
    (h : k ∈ Fmap.keys m) : k ∈ Fmap.keys (Marking.get_or_insert m p) := by
  unfold Marking.get_or_insert
  cases Fmap.lookup m p with
  | some ms => exact h
  | none =>
      unfold Fmap.keys at h ⊢
      rw [List.map_append]
      exact List.mem_append_left _ h

theorem mem_keys_get_or_insert_self (m : Marking) (p : String) :
    p ∈ Fmap.keys (Marking.get_or_insert m p) :=
  mem_keys_of_lookup (lookup_get_or_insert_self m p)

theorem addAt_eq (m : Marking) (p : String) (t : Token) (n : Nat) :
    Marking.addAt m p t n =
      Fmap.update (Marking.get_or_insert m p) p
        (Multiset.add ((Fmap.lookup m p).getD Multiset.new) t n) := by
  unfold Marking.addAt
  dsimp only
  rw [lookup_get_or_insert_self]
  simp

theorem keys_removeAt (m : Marking) (p : String) (t : Token) (n : Nat) :
    Fmap.keys (Marking.removeAt m p t n).1 =
      Fmap.keys (Marking.get_or_insert m p) := by
  rw [removeAt_eq]
  exact Fmap.keys_update _ _ _

theorem keys_addAt (m : Marking) (p : String) (t : Token) (n : Nat) :
    Fmap.keys (Marking.addAt m p t n) =
      Fmap.keys (Marking.get_or_insert m p) := by
  rw [addAt_eq]
  exact Fmap.keys_update _ _ _

theorem keys_consumePre_superset (b : Binding) (pre : List ArcSpec) :
    ∀ (m : Marking) (k : String), k ∈ Fmap.keys m →
      k ∈ Fmap.keys (CpnEngine.consumePre m b pre).1 := by
  induction pre with
  | nil => intro m k h; exact h
  | cons arc rest ih =>
      intro m k h
      rw [CpnEngine.consumePre]
      dsimp only
      refine ih _ k ?_
      rw [keys_removeAt]
      exact keys_get_or_insert_superset arc.place h

theorem keys_consumePre_arcs (b : Binding) (pre : List ArcSpec) :
    ∀ (m : Marking), ∀ arc ∈ pre,
      arc.place ∈ Fmap.keys (CpnEngine.consumePre m b pre).1 := by
  induction pre with
  | nil => intro m arc h; cases h
  | cons arc0 rest ih =>
      intro m arc h
      rw [CpnEngine.consumePre]
      dsimp only
      rcases List.mem_cons.mp h with rfl | h
      · refine keys_consumePre_superset b rest _ arc.place ?_
        rw [keys_removeAt]
        exact mem_keys_get_or_insert_self m arc.place
      · exact ih _ arc h

theorem keys_producePost_superset (b : Binding) (post : List ArcSpec) :
    ∀ (m : Marking) (k : String), k ∈ Fmap.keys m →
      k ∈ Fmap.keys (CpnEngine.producePost m b post) := by
  induction post with
  | nil => intro m k h; exact h
  | cons arc rest ih =>
      intro m k h
      rw [CpnEngine.producePost]
      refine ih _ k ?_
      rw [keys_addAt]
      exact keys_get_or_insert_superset arc.place h

theorem keys_producePost_arcs (b : Binding) (post : List ArcSpec) :
    ∀ (m : Marking), ∀ arc ∈ post,
      arc.place ∈ Fmap.keys (CpnEngine.producePost m b post) := by
  induction post with
  | nil => intro m arc h; cases h
  | cons arc0 rest ih =>
      intro m arc h
      rw [CpnEngine.producePost]
      rcases List.mem_cons.mp h with rfl | h
      · refine keys_producePost_superset b rest _ arc.place ?_
        rw [keys_addAt]
        exact mem_keys_get_or_insert_self m arc.place
      · exact ih _ arc h

theorem fire_ok_marking {e : CpnEngine} {transition_id : String} {b : Binding}
    {t : Transition} (ht : Fmap.lookup e.transitions transition_id = some t)
    (hok : (CpnEngine.fire e transition_id b).2 = Except.ok ()) :
    (CpnEngine.fire e transition_id b).1.marking =
      CpnEngine.producePost (CpnEngine.consumePre e.marking b t.pre).1 b
        t.post := by
  unfold CpnEngine.fire at hok ⊢
  simp only [ht] at hok ⊢
  cases hm : (CpnEngine.checkPre e.marking b t.pre).isEmpty with
  | true => simp [hm]
  | false => simp [hm] at hok

/-- Every key of a marking contributes its identifier to the stream of values
`Marking::hash` feeds into the hasher — keys bound to empty multisets
included. -/
theorem hashStream_mem_str {m : Marking} {k : String}
    (h : k ∈ Fmap.keys m) : HashItem.str k ∈ Marking.hashStream m := by
  unfold Marking.hashStream
  refine List.mem_flatten.mpr ⟨placeStream m k, ?_, ?_⟩
  · refine List.mem_map_of_mem (placeStream m) ?_
    unfold sortedPlaces
    exact (List.perm_insertionSort _ _).mem_iff.mpr h
  · exact List.mem_cons_self _ _

/-- C10: a successful `fire` never deletes a place key from the marking:
every key present before is present after, every place named by a pre- or
post-arc of the fired transition is present after (possibly bound to an empty
multiset), and `Marking::hash` folds the place identifier of every key of the
resulting marking into its hashed stream. -/
theorem fire_ok_preserves_place_keys (e : CpnEngine) (transition_id : String)
    (b : Binding) (t : Transition)
    (ht : Fmap.lookup e.transitions transition_id = some t)
    (hok : (CpnEngine.fire e transition_id b).2 = Except.ok ()) :
    (∀ k, k ∈ Fmap.keys e.marking →
        k ∈ Fmap.keys (CpnEngine.fire e transition_id b).1.marking) ∧
    (∀ arc ∈ t.pre ++ t.post,
        arc.place ∈ Fmap.keys (CpnEngine.fire e transition_id b).1.marking) ∧
    (∀ k, k ∈ Fmap.keys (CpnEngine.fire e transition_id b).1.marking →
        HashItem.str k ∈
          Marking.hashStream (CpnEngine.fire e transition_id b).1.marking) := by
  rw [fire_ok_marking ht hok]
  refine ⟨?_, ?_, ?_⟩
  · intro k hk
    exact keys_producePost_superset b t.post _ k
      (keys_consumePre_superset b t.pre _ k hk)
  · intro arc harc
    rcases List.mem_append.mp harc with harc | harc
    · exact keys_producePost_superset b t.post _ arc.place
        (keys_consumePre_arcs b t.pre _ arc harc)
    · exact keys_producePost_arcs b t.post _ arc harc
  · intro k hk
    exact hashStream_mem_str hk

/-! ## C2: what reset does to the coverage set -/

/-- C2 (amended): `reset()` restores the marking to the original initial
marking and ALSO clears the coverage set — coverage is not cumulative across
resets: right after a reset the coverage set is empty (the transition table
is untouched), so the next `record_execution_end` reports its hash as new
even if it had been recorded before the reset. -/
theorem reset_restores_marking_and_clears_coverage (r : PetriRuntime) :
    (PetriRuntime.reset r).engine.marking = r.initial_marking ∧
    (PetriRuntime.reset r).seen_markings = [] ∧
    (PetriRuntime.reset r).engine.transitions = r.engine.transitions ∧
    (PetriRuntime.record_execution_end (PetriRuntime.reset r)).2.2 = true :=
  ⟨rfl, rfl, rfl, rfl⟩

/-- Counterexample to C2 as stated: on a runtime whose final marking equals
its initial marking, record a hash, reset, and observe that the coverage set
has been emptied and the very same hash is reported as new again. -/
theorem reset_clears_coverage_counterexample :
    ((PetriRuntime.record_execution_end
        { engine := CpnEngine.new,
          config := { config_path := "net.json", log_path := none,
                      fail_fast := true, print_marking_on_each_event := false },
          event_mapping := [], initial_marking := [],
          seen_markings := [], log_file := none }).1.seen_markings ≠ []) ∧
    ((PetriRuntime.reset (PetriRuntime.record_execution_end
        { engine := CpnEngine.new,
          config := { config_path := "net.json", log_path := none,
                      fail_fast := true, print_marking_on_each_event := false },
          event_mapping := [], initial_marking := [],
          seen_markings := [], log_file := none }).1).seen_markings = []) ∧
    ((PetriRuntime.record_execution_end
        (PetriRuntime.reset (PetriRuntime.record_execution_end
          { engine := CpnEngine.new,
            config := { config_path := "net.json", log_path := none,
                        fail_fast := true, print_marking_on_each_event := false },
            event_mapping := [], initial_marking := [],
            seen_markings := [], log_file := none }).1)).2.2 = true) := by
  refine ⟨?_, rfl, rfl⟩
  intro h
  exact List.cons_ne_nil _ _ h

/-! ## C8: unmapped events are silently accepted without any state change -/

theorem get_transition_none {r : PetriRuntime} {e : PetriEvent}
    (hmap : Fmap.lookup r.event_mapping e.event_type_name = none)
    (h1 : e.event_type_name ≠ "LockAcquire")
    (h2 : e.event_type_name ≠ "LockRelease") :
    PetriRuntime.get_transition_for_event r e = none := by
  unfold PetriRuntime.get_transition_for_event
  rw [hmap]
  cases e <;> first | rfl | exact absurd rfl h1 | exact absurd rfl h2

theorem on_event_skip_of_no_transition (r : PetriRuntime) (e : PetriEvent)
    (span : Option SpanLike)
    (h : PetriRuntime.get_transition_for_event r e = none) :
    PetriRuntime.on_event r e span = (r, Except.ok ()) := by
  unfold PetriRuntime.on_event
  rw [h]

/-- C8: an event whose type name has no entry in the event mapping and is
neither "LockAcquire" nor "LockRelease" (the two hard-coded fallbacks) is
silently accepted: `on_event` returns Ok with the entire runtime state —
engine marking, coverage set and log included — unchanged. -/
theorem on_event_unmapped_event_no_state_change (r : PetriRuntime)
    (e : PetriEvent) (span : Option SpanLike)
    (hmap : Fmap.lookup r.event_mapping e.event_type_name = none)
    (h1 : e.event_type_name ≠ "LockAcquire")
    (h2 : e.event_type_name ≠ "LockRelease") :
    PetriRuntime.on_event r e span = (r, Except.ok ()) :=
  on_event_skip_of_no_transition r e span (get_transition_none hmap h1 h2)

/-- Witness for C8 at a concrete runtime and event. -/
theorem on_event_unmapped_event_no_state_change_witness :
    PetriRuntime.on_event
      { engine := CpnEngine.new,
        config := { config_path := "net.json", log_path := none,
                    fail_fast := true, print_marking_on_each_event := false },
        event_mapping := [], initial_marking := [],
        seen_markings := [], log_file := none }
      (PetriEvent.Yield 3) none =
      ({ engine := CpnEngine.new,
          config := { config_path := "net.json", log_path := none,
                      fail_fast := true, print_marking_on_each_event := false },
          event_mapping := [], initial_marking := [],
          seen_markings := [], log_file := none }, Except.ok ()) :=
  on_event_unmapped_event_no_state_change _ _ _ rfl
    (by decide) (by decide)

/-- Witness for C10 at the concrete mutex acquire firing. -/
theorem fire_ok_preserves_place_keys_witness :
    (∀ k, k ∈ Fmap.keys
        (({ transitions := [("acquire",
              { id := "acquire",
                pre := [⟨"free", ArcTokenPattern.Variable "L"⟩],
                post := [⟨"held", ArcTokenPattern.Variable "L"⟩] })],
            marking := [("free", [(Token.Lock 42, 1)])] } : CpnEngine)).marking →
        k ∈ Fmap.keys (CpnEngine.fire
          { transitions := [("acquire",
              { id := "acquire",
                pre := [⟨"free", ArcTokenPattern.Variable "L"⟩],
                post := [⟨"held", ArcTokenPattern.Variable "L"⟩] })],
            marking := [("free", [(Token.Lock 42, 1)])] }
          "acquire" [("L", Token.Lock 42)]).1.marking) ∧
    (∀ arc ∈ [⟨"free", ArcTokenPattern.Variable "L"⟩,
          ⟨"held", ArcTokenPattern.Variable "L"⟩].map id,
        ArcSpec.place arc ∈ Fmap.keys (CpnEngine.fire
          { transitions := [("acquire",
              { id := "acquire",
                pre := [⟨"free", ArcTokenPattern.Variable "L"⟩],
                post := [⟨"held", ArcTokenPattern.Variable "L"⟩] })],
            marking := [("free", [(Token.Lock 42, 1)])] }
          "acquire" [("L", Token.Lock 42)]).1.marking) ∧
    (∀ k, k ∈ Fmap.keys (CpnEngine.fire
          { transitions := [("acquire",
              { id := "acquire",
                pre := [⟨"free", ArcTokenPattern.Variable "L"⟩],
                post := [⟨"held", ArcTokenPattern.Variable "L"⟩] })],
            marking := [("free", [(Token.Lock 42, 1)])] }
          "acquire" [("L", Token.Lock 42)]).1.marking →
        HashItem.str k ∈ Marking.hashStream (CpnEngine.fire
          { transitions := [("acquire",
              { id := "acquire",
                pre := [⟨"free", ArcTokenPattern.Variable "L"⟩],
                post := [⟨"held", ArcTokenPattern.Variable "L"⟩] })],
            marking := [("free", [(Token.Lock 42, 1)])] }
          "acquire" [("L", Token.Lock 42)]).1.marking) := by
  have h := fire_ok_preserves_place_keys
    { transitions := [("acquire",
        { id := "acquire",
          pre := [⟨"free", ArcTokenPattern.Variable "L"⟩],
          post := [⟨"held", ArcTokenPattern.Variable "L"⟩] })],
      marking := [("free", [(Token.Lock 42, 1)])] }
    "acquire" [("L", Token.Lock 42)]
    { id := "acquire",
      pre := [⟨"free", ArcTokenPattern.Variable "L"⟩],
      post := [⟨"held", ArcTokenPattern.Variable "L"⟩] }
    (by decide) rfl
  simpa using h

/-! ## C7: what a failing on_event returns -/

/-- C7 (amended): when the mapped transition fails to fire, `on_event`
returns Err with a Violation carrying the event, its thread id, its object id
if any, the caller-supplied location, the missing (place, token) list and a
clone of the full current marking — and the runtime it returns is exactly the
runtime as it stood immediately before the `fire` call, i.e. after the lazy
seeding step.  The failing fire itself mutates nothing, but the lazy seeding
for "acquire" may already have added a token to "free", so the marking at
return can differ from the marking at entry
(`on_event_failure_marking_changed`). -/
theorem on_event_failure_spec (r : PetriRuntime) (e : PetriEvent)
    (span : Option SpanLike) (transition_id : String) (ne : NotEnabled)
    (hget : PetriRuntime.get_transition_for_event r e = some transition_id)
    (hfire : (CpnEngine.fire
        (PetriRuntime.seedStep r transition_id
          (PetriRuntime.make_binding e)).engine
        transition_id (PetriRuntime.make_binding e)).2 = Except.error ne) :
    PetriRuntime.on_event r e span =
      (PetriRuntime.seedStep r transition_id (PetriRuntime.make_binding e),
        Except.error
          { event := e, tid := e.tid, object_id := e.object_id, span := span,
            missing_tokens := ne.missing,
            current_marking := (PetriRuntime.seedStep r transition_id
              (PetriRuntime.make_binding e)).engine.marking }) := by
  unfold PetriRuntime.on_event
  rw [hget]
  dsimp only
  rw [hfire]
  dsimp only
  rw [fire_error_fst hfire]

/-- Witness for C7's amended theorem: a LockAcquire event on a runtime with
no "acquire" transition registered. -/
theorem on_event_failure_spec_witness :
    PetriRuntime.on_event
      { engine := { transitions := [], marking := [] },
        config := { config_path := "net.json", log_path := none,
                    fail_fast := true, print_marking_on_each_event := false },
        event_mapping := [], initial_marking := [],
        seen_markings := [], log_file := none }
      (PetriEvent.LockAcquire 1 7) none =
      (PetriRuntime.seedStep
        { engine := { transitions := [], marking := [] },
          config := { config_path := "net.json", log_path := none,
                      fail_fast := true, print_marking_on_each_event := false },
          event_mapping := [], initial_marking := [],
          seen_markings := [], log_file := none }
        "acquire" (PetriRuntime.make_binding (PetriEvent.LockAcquire 1 7)),
        Except.error
          { event := PetriEvent.LockAcquire 1 7,
            tid := (PetriEvent.LockAcquire 1 7).tid,
            object_id := (PetriEvent.LockAcquire 1 7).object_id,
            span := none,
            missing_tokens := NotEnabled.missing
              { transition := "acquire", missing := [] },
            current_marking := (PetriRuntime.seedStep
              { engine := { transitions := [], marking := [] },
                config := { config_path := "net.json", log_path := none,
                            fail_fast := true,
                            print_marking_on_each_event := false },
                event_mapping := [], initial_marking := [],
                seen_markings := [], log_file := none }
              "acquire"
              (PetriRuntime.make_binding
                (PetriEvent.LockAcquire 1 7))).engine.marking }) :=
  on_event_failure_spec _ (PetriEvent.LockAcquire 1 7) none "acquire"
    { transition := "acquire", missing := [] } rfl rfl

/-- Counterexample to C7 as stated: with no "acquire" transition registered,
processing a LockAcquire event lazily seeds place "free" before the fire
fails, so `on_event` returns Err while the marking at return differs from the
marking the runtime had when `on_event` was called. -/
theorem on_event_failure_marking_changed :
    (PetriRuntime.on_event
        { engine := { transitions := [], marking := [] },
          config := { config_path := "net.json", log_path := none,
                      fail_fast := true, print_marking_on_each_event := false },
          event_mapping := [], initial_marking := [],
          seen_markings := [], log_file := none }
        (PetriEvent.LockAcquire 1 7) none) =
      ({ engine := { transitions := [], marking := [("free", [(Token.Lock 7, 1)])] },
          config := { config_path := "net.json", log_path := none,
                      fail_fast := true, print_marking_on_each_event := false },
          event_mapping := [], initial_marking := [],
          seen_markings := [], log_file := none },
        Except.error
          { event := PetriEvent.LockAcquire 1 7, tid := 1, object_id := some 7,
            span := none, missing_tokens := [],
            current_marking := [("free", [(Token.Lock 7, 1)])] }) ∧
    [("free", [(Token.Lock 7, 1)])] ≠ ([] : Marking) :=
  ⟨rfl, by decide⟩

/-! ## C9: the lazy-seeding scenario -/

theorem count_add_self (ms : Multiset) (t : Token) (n : Nat) :
    Multiset.count (Multiset.add ms t n) t = Multiset.count ms t + n := by
  cases hl : Fmap.lookup ms t with
  | some c =>
      rw [add_lookup_some hl]
      unfold Multiset.count
      rw [Fmap.lookup_update_self _ hl, hl]
      rfl
  | none =>
      rw [add_lookup_none hl]
      unfold Multiset.count
      rw [Fmap.lookup_append_right hl, hl]
      simp [Fmap.lookup]

theorem count_add_ne {ms : Multiset} {t t2 : Token} (n : Nat) (h : t2 ≠ t) :
    Multiset.count (Multiset.add ms t n) t2 = Multiset.count ms t2 := by
  cases hl : Fmap.lookup ms t with
  | some c =>
      rw [add_lookup_some hl]
      unfold Multiset.count
      rw [Fmap.lookup_update_ne _ h]
  | none =>
      rw [add_lookup_none hl]
      unfold Multiset.count
      cases hl2 : Fmap.lookup ms t2 with
      | some v => rw [Fmap.lookup_append_left hl2]
      | none =>
          rw [Fmap.lookup_append_right hl2]
          simp [Fmap.lookup, Ne.symm h]

theorem countAt_addAt_self (m : Marking) (p : String) (t : Token) (n : Nat) :
    Marking.countAt (Marking.addAt m p t n) p t = Marking.countAt m p t + n := by
  rw [addAt_eq]
  unfold Marking.countAt
  rw [Fmap.lookup_update_self _ (lookup_get_or_insert_self m p)]
  simp only [Option.getD_some]
  exact count_add_self _ _ _

theorem countAt_addAt_other {m : Marking} {p p2 : String} {t t2 : Token}
    {n : Nat} (h : (p, t) ≠ (p2, t2)) :
    Marking.countAt (Marking.addAt m p t n) p2 t2 = Marking.countAt m p2 t2 := by
  rw [addAt_eq]
  by_cases hp : p2 = p
  · subst hp
    have ht : t2 ≠ t := fun hc => h (by rw [hc])
    unfold Marking.countAt
    rw [Fmap.lookup_update_self _ (lookup_get_or_insert_self m p2)]
    simp only [Option.getD_some]
    exact count_add_ne _ ht
  · unfold Marking.countAt
    rw [Fmap.lookup_update_ne _ hp, lookup_get_or_insert_ne hp]

theorem contains_of_countAt_pos {m : Marking} {p : String} {t : Token}
    (h : 1 ≤ Marking.countAt m p t) :
    ∃ ms, Fmap.lookup m p = some ms ∧ Multiset.contains ms t 1 = true := by
  unfold Marking.countAt at h
  cases hl : Fmap.lookup m p with
  | none =>
      rw [hl] at h
      simp [Multiset.count, Multiset.new, Fmap.lookup] at h
  | some ms =>
      rw [hl] at h
      simp only [Option.getD_some] at h
      exact ⟨ms, rfl, contains_one_iff.mpr h⟩

theorem seedStep_acquire_missing {r : PetriRuntime} {l : Nat}
    {binding : Binding}
    (hb : Fmap.lookup binding "L" = some (Token.Lock l))
    (hfree : Marking.countAt r.engine.marking "free" (Token.Lock l) = 0) :
    PetriRuntime.seedStep r "acquire" binding =
      { r with engine := { r.engine with marking := Marking.addAt r.engine.marking "free" (Token.Lock l) 1 } } := by
  unfold PetriRuntime.seedStep
  rw [if_pos rfl, hb]
  dsimp only
  cases hl : Fmap.lookup r.engine.marking "free" with
  | none => simp [hl]
  | some ms =>
      have hcf : Multiset.contains ms (Token.Lock l) 1 = false := by
        rw [Bool.eq_false_iff]
        intro hc
        have h1 := contains_one_iff.mp hc
        unfold Marking.countAt at hfree
        rw [hl] at hfree
        simp only [Option.getD_some] at hfree
        omega
      simp [hl, hcf]

theorem fire_eq_ok {e : CpnEngine} {transition_id : String} {b : Binding}
    {t : Transition} (ht : Fmap.lookup e.transitions transition_id = some t)
    (hck : CpnEngine.checkPre e.marking b t.pre = []) :
    CpnEngine.fire e transition_id b =
      ({ e with marking := CpnEngine.producePost (CpnEngine.consumePre e.marking b t.pre).1 b t.post },
        Except.ok ()) := by
  unfold CpnEngine.fire
  simp only [ht]
  try dsimp only
  rw [hck]
  rfl

/-- C9: with the mutex net loaded (an "acquire" transition with pre-arc
free:L and post-arc held:L, and no explicit mapping overriding LockAcquire),
processing LockAcquire{tid:1, lock_id:7} when Lock(7) appears nowhere in the
marking succeeds: `on_event` first lazily seeds place "free" with one Lock(7)
token, then fires "acquire", and the resulting marking holds Lock(7) with
count 1 in place "held". -/
theorem lazy_seed_acquire_succeeds (r : PetriRuntime) (span : Option SpanLike)
    (hmap : Fmap.lookup r.event_mapping "LockAcquire" = none)
    (htr : Fmap.lookup r.engine.transitions "acquire" =
      some { id := "acquire",
             pre := [⟨"free", ArcTokenPattern.Variable "L"⟩],
             post := [⟨"held", ArcTokenPattern.Variable "L"⟩] })
    (hnone : ∀ p, Marking.countAt r.engine.marking p (Token.Lock 7) = 0) :
    (PetriRuntime.on_event r (PetriEvent.LockAcquire 1 7) span).2 =
      Except.ok () ∧
    Marking.countAt
      (PetriRuntime.on_event r
        (PetriEvent.LockAcquire 1 7) span).1.engine.marking
      "held" (Token.Lock 7) = 1 := by
  have hget : PetriRuntime.get_transition_for_event r
      (PetriEvent.LockAcquire 1 7) = some "acquire" := by
    unfold PetriRuntime.get_transition_for_event
    simp only [PetriEvent.event_type_name]
    rw [hmap]
  have hbL : Fmap.lookup
      (PetriRuntime.make_binding (PetriEvent.LockAcquire 1 7)) "L" =
      some (Token.Lock 7) := rfl
  have hseed := seedStep_acquire_missing (r := r) hbL (hnone "free")
  have hc2free : Marking.countAt
      (Marking.addAt r.engine.marking "free" (Token.Lock 7) 1)
      "free" (Token.Lock 7) = 1 := by
    rw [countAt_addAt_self, hnone "free"]
  have hc2held : Marking.countAt
      (Marking.addAt r.engine.marking "free" (Token.Lock 7) 1)
      "held" (Token.Lock 7) = 0 := by
    rw [countAt_addAt_other (by decide), hnone "held"]
  have hck : CpnEngine.checkPre
      (Marking.addAt r.engine.marking "free" (Token.Lock 7) 1)
      (PetriRuntime.make_binding (PetriEvent.LockAcquire 1 7))
      [⟨"free", ArcTokenPattern.Variable "L"⟩] = [] := by
    obtain ⟨ms, hl, hcont⟩ := contains_of_countAt_pos (by omega : 1 ≤
      Marking.countAt (Marking.addAt r.engine.marking "free" (Token.Lock 7) 1)
        "free" (Token.Lock 7))
    rw [CpnEngine.checkPre, CpnEngine.checkPre]
    unfold CpnEngine.arcMissing
    simp only [CpnEngine.resolve_token, hbL, hl, hcont]
    simp
  have hcons : (CpnEngine.consumePre
      (Marking.addAt r.engine.marking "free" (Token.Lock 7) 1)
      (PetriRuntime.make_binding (PetriEvent.LockAcquire 1 7))
      [⟨"free", ArcTokenPattern.Variable "L"⟩]).1 =
      (Marking.removeAt
        (Marking.addAt r.engine.marking "free" (Token.Lock 7) 1)
        "free" (Token.Lock 7) 1).1 := by
    rw [CpnEngine.consumePre]
    simp only [CpnEngine.resolve_token, hbL]
    rfl
  have hfinal : Marking.countAt
      (CpnEngine.producePost
        (CpnEngine.consumePre
          (Marking.addAt r.engine.marking "free" (Token.Lock 7) 1)
          (PetriRuntime.make_binding (PetriEvent.LockAcquire 1 7))
          [⟨"free", ArcTokenPattern.Variable "L"⟩]).1
        (PetriRuntime.make_binding (PetriEvent.LockAcquire 1 7))
        [⟨"held", ArcTokenPattern.Variable "L"⟩])
      "held" (Token.Lock 7) = 1 := by
    rw [CpnEngine.producePost]
    simp only [CpnEngine.resolve_token, hbL]
    rw [CpnEngine.producePost]
    show Marking.countAt (Marking.addAt _ "held"
      ((some (Token.Lock 7)).getD Token.Unit) 1) "held" (Token.Lock 7) = 1
    simp only [Option.getD_some]
    rw [countAt_addAt_self, hcons, countAt_removeAt_other (by decide), hc2held]
  have hfire := fire_eq_ok (e := { r.engine with
      marking := Marking.addAt r.engine.marking "free" (Token.Lock 7) 1 })
    (b := PetriRuntime.make_binding (PetriEvent.LockAcquire 1 7)) htr hck
  unfold PetriRuntime.on_event
  rw [hget]
  dsimp only
  rw [hseed]
  dsimp only
  rw [hfire]
  try dsimp only
  cases hlog : r.log_file with
  | none =>
      simp only [hlog]
      exact ⟨by trivial, hfinal⟩
  | some recs =>
      simp only [hlog]
      exact ⟨by trivial, hfinal⟩

/-- Witness for C9 at a concrete runtime holding the mutex net and the empty
marking. -/
theorem lazy_seed_acquire_succeeds_witness :
    ((PetriRuntime.on_event
        ⟨⟨[("acquire", ⟨"acquire", [⟨"free", ArcTokenPattern.Variable "L"⟩],
            [⟨"held", ArcTokenPattern.Variable "L"⟩]⟩)], []⟩,
          ⟨"net.json", none, true, false⟩, [], [], [], none⟩
        (PetriEvent.LockAcquire 1 7) none).2 = Except.ok ()) ∧
    (Marking.countAt
      (PetriRuntime.on_event
        ⟨⟨[("acquire", ⟨"acquire", [⟨"free", ArcTokenPattern.Variable "L"⟩],
            [⟨"held", ArcTokenPattern.Variable "L"⟩]⟩)], []⟩,
          ⟨"net.json", none, true, false⟩, [], [], [], none⟩
        (PetriEvent.LockAcquire 1 7) none).1.engine.marking
      "held" (Token.Lock 7) = 1) :=
  lazy_seed_acquire_succeeds _ none rfl (by decide) (fun _ => rfl)

/-! ## C5: the marking hash depends on contents only -/

theorem digitsVal_append_digit (l : List Char) (c : Char) :
    digitsVal (l ++ [c]) = digitsVal l * 10 + charVal c := by
  unfold digitsVal
  rw [List.foldl_append]
  rfl

theorem charVal_digitChar {d : Nat} (h : d < 10) :
    charVal (digitChar d) = d := by
  interval_cases d <;> decide

theorem digitsVal_natReprAux (n : Nat) : digitsVal (natReprAux n) = n := by
  induction n using Nat.strong_induction_on with
  | _ n ih =>
      rw [natReprAux]
      by_cases h : n < 10
      · rw [if_pos h]
        simp [digitsVal, charVal_digitChar h]
      · rw [if_neg h]
        rw [digitsVal_append_digit,
          ih (n / 10) (Nat.div_lt_self (by omega) (by omega)),
          charVal_digitChar (Nat.mod_lt _ (by omega))]
        omega

theorem natReprAux_injective {a b : Nat} (h : natReprAux a = natReprAux b) :
    a = b := by
  have hd := congrArg digitsVal h
  rwa [digitsVal_natReprAux, digitsVal_natReprAux] at hd

theorem data_repr_tid (a : Nat) : (tokenDebugRepr (Token.Tid a)).data =
    'T' :: 'i' :: 'd' :: '(' :: (natReprAux a ++ [')']) := rfl

theorem data_repr_lock (a : Nat) : (tokenDebugRepr (Token.Lock a)).data =
    'L' :: 'o' :: 'c' :: 'k' :: '(' :: (natReprAux a ++ [')']) := rfl

theorem data_repr_loc (a : Nat) : (tokenDebugRepr (Token.Loc a)).data =
    'L' :: 'o' :: 'c' :: '(' :: (natReprAux a ++ [')']) := rfl

theorem data_repr_region (a : Nat) : (tokenDebugRepr (Token.Region a)).data =
    'R' :: 'e' :: 'g' :: 'i' :: 'o' :: 'n' :: '(' :: (natReprAux a ++ [')']) :=
  rfl

theorem data_repr_unit : (tokenDebugRepr Token.Unit).data =
    ['U', 'n', 'i', 't'] := rfl

theorem tokenDebugRepr_injective : Function.Injective tokenDebugRepr := by
  intro t1 t2 h
  have hd := congrArg String.data h
  cases t1 with
  | Tid a =>
      cases t2 with
      | Tid b =>
          rw [data_repr_tid, data_repr_tid] at hd
          have h4 := congrArg (fun l => List.drop 4 l) hd
          exact congrArg Token.Tid
            (natReprAux_injective (List.append_cancel_right h4))
      | Lock b =>
          rw [data_repr_tid, data_repr_lock] at hd
          exact absurd (show ('T' : Char) = 'L' from
            congrArg (fun l => List.headD l ' ') hd) (by decide)
      | Loc b =>
          rw [data_repr_tid, data_repr_loc] at hd
          exact absurd (show ('T' : Char) = 'L' from
            congrArg (fun l => List.headD l ' ') hd) (by decide)
      | Region b =>
          rw [data_repr_tid, data_repr_region] at hd
          exact absurd (show ('T' : Char) = 'R' from
            congrArg (fun l => List.headD l ' ') hd) (by decide)
      | Unit =>
          rw [data_repr_tid, data_repr_unit] at hd
          exact absurd (show ('T' : Char) = 'U' from
            congrArg (fun l => List.headD l ' ') hd) (by decide)
  | Lock a =>
      cases t2 with
      | Tid b =>
          rw [data_repr_lock, data_repr_tid] at hd
          exact absurd (show ('L' : Char) = 'T' from
            congrArg (fun l => List.headD l ' ') hd) (by decide)
      | Lock b =>
          rw [data_repr_lock, data_repr_lock] at hd
          have h5 := congrArg (fun l => List.drop 5 l) hd
          exact congrArg Token.Lock
            (natReprAux_injective (List.append_cancel_right h5))
      | Loc b =>
          rw [data_repr_lock, data_repr_loc] at hd
          exact absurd (show ('k' : Char) = '(' from
            congrArg (fun l => List.headD (List.drop 3 l) ' ') hd) (by decide)
      | Region b =>
          rw [data_repr_lock, data_repr_region] at hd
          exact absurd (show ('L' : Char) = 'R' from
            congrArg (fun l => List.headD l ' ') hd) (by decide)
      | Unit =>
          rw [data_repr_lock, data_repr_unit] at hd
          exact absurd (show ('L' : Char) = 'U' from
            congrArg (fun l => List.headD l ' ') hd) (by decide)
  | Loc a =>
      cases t2 with
      | Tid b =>
          rw [data_repr_loc, data_repr_tid] at hd
          exact absurd (show ('L' : Char) = 'T' from
            congrArg (fun l => List.headD l ' ') hd) (by decide)
      | Lock b =>
          rw [data_repr_loc, data_repr_lock] at hd
          exact absurd (show ('(' : Char) = 'k' from
            congrArg (fun l => List.headD (List.drop 3 l) ' ') hd) (by decide)
      | Loc b =>
          rw [data_repr_loc, data_repr_loc] at hd
          have h4 := congrArg (fun l => List.drop 4 l) hd
          exact congrArg Token.Loc
            (natReprAux_injective (List.append_cancel_right h4))
      | Region b =>
          rw [data_repr_loc, data_repr_region] at hd
          exact absurd (show ('L' : Char) = 'R' from
            congrArg (fun l => List.headD l ' ') hd) (by decide)
      | Unit =>
          rw [data_repr_loc, data_repr_unit] at hd
          exact absurd (show ('L' : Char) = 'U' from
            congrArg (fun l => List.headD l ' ') hd) (by decide)
  | Region a =>
      cases t2 with
      | Tid b =>
          rw [data_repr_region, data_repr_tid] at hd
          exact absurd (show ('R' : Char) = 'T' from
            congrArg (fun l => List.headD l ' ') hd) (by decide)
      | Lock b =>
          rw [data_repr_region, data_repr_lock] at hd
          exact absurd (show ('R' : Char) = 'L' from
            congrArg (fun l => List.headD l ' ') hd) (by decide)
      | Loc b =>
          rw [data_repr_region, data_repr_loc] at hd
          exact absurd (show ('R' : Char) = 'L' from
            congrArg (fun l => List.headD l ' ') hd) (by decide)
      | Region b =>
          rw [data_repr_region, data_repr_region] at hd
          have h7 := congrArg (fun l => List.drop 7 l) hd
          exact congrArg Token.Region
            (natReprAux_injective (List.append_cancel_right h7))
      | Unit =>
          rw [data_repr_region, data_repr_unit] at hd
          exact absurd (show ('R' : Char) = 'U' from
            congrArg (fun l => List.headD l ' ') hd) (by decide)
  | Unit =>
      cases t2 with
      | Tid b =>
          rw [data_repr_unit, data_repr_tid] at hd
          exact absurd (show ('U' : Char) = 'T' from
            congrArg (fun l => List.headD l ' ') hd) (by decide)
      | Lock b =>
          rw [data_repr_unit, data_repr_lock] at hd
          exact absurd (show ('U' : Char) = 'L' from
            congrArg (fun l => List.headD l ' ') hd) (by decide)
      | Loc b =>
          rw [data_repr_unit, data_repr_loc] at hd
          exact absurd (show ('U' : Char) = 'L' from
            congrArg (fun l => List.headD l ' ') hd) (by decide)
      | Region b =>
          rw [data_repr_unit, data_repr_region] at hd
          exact absurd (show ('U' : Char) = 'R' from
            congrArg (fun l => List.headD l ' ') hd) (by decide)
      | Unit => rfl

theorem eq_of_perm_of_sortedKey {α β : Type} [LinearOrder β] (f : α → β)
    {l1 l2 : List α} (hp : l1.Perm l2)
    (hs1 : l1.Sorted fun x y => f x ≤ f y)
    (hs2 : l2.Sorted fun x y => f x ≤ f y)
    (hnd : (l1.map f).Nodup) : l1 = l2 := by
  haveI : IsAntisymm α fun x y => f x < f y :=
    ⟨fun a b h1 h2 => absurd h2 (lt_asymm h1)⟩
  have hnd2 : (l2.map f).Nodup := ((hp.map f).nodup_iff).mp hnd
  have hpw1 : l1.Pairwise fun a b => f a ≠ f b := List.pairwise_map.mp hnd
  have hpw2 : l2.Pairwise fun a b => f a ≠ f b := List.pairwise_map.mp hnd2
  have hss1 : l1.Sorted fun x y => f x < f y :=
    (hs1.and hpw1).imp fun h => lt_of_le_of_ne h.1 h.2
  have hss2 : l2.Sorted fun x y => f x < f y :=
    (hs2.and hpw2).imp fun h => lt_of_le_of_ne h.1 h.2
  exact List.eq_of_perm_of_sorted hp hss1 hss2

theorem sortedPlaces_eq_of_perm {a b : Marking}
    (h : (Fmap.keys a).Perm (Fmap.keys b)) :
    sortedPlaces a = sortedPlaces b := by
  unfold sortedPlaces
  haveI : IsTotal String fun x y => x ≤ y := ⟨fun x y => le_total x y⟩
  haveI : IsTrans String fun x y => x ≤ y := ⟨fun x y z hx hy => le_trans hx hy⟩
  haveI : IsAntisymm String fun x y => x ≤ y :=
    ⟨fun x y hx hy => le_antisymm hx hy⟩
  refine List.eq_of_perm_of_sorted (r := fun x y : String => x ≤ y) ?_ ?_ ?_
  · exact (List.perm_insertionSort _ _).trans
      (h.trans (List.perm_insertionSort _ _).symm)
  · exact List.sorted_insertionSort _ _
  · exact List.sorted_insertionSort _ _

theorem sortedTokens_eq_of_perm {x y : Multiset} (hp : x.Perm y)
    (hnd : ((Fmap.keys x).map tokenDebugRepr).Nodup) :
    sortedTokens x = sortedTokens y := by
  unfold sortedTokens
  haveI : IsTotal (Token × Nat) tokenLe := ⟨fun a b => le_total _ _⟩
  haveI : IsTrans (Token × Nat) tokenLe :=
    ⟨fun a b c hab hbc => le_trans hab hbc⟩
  have hndx : (x.map fun tc => tokenDebugRepr tc.1).Nodup := by
    have : (Fmap.keys x).map tokenDebugRepr =
        x.map fun tc => tokenDebugRepr tc.1 := by
      unfold Fmap.keys
      rw [List.map_map]
      rfl
    rwa [this] at hnd
  refine eq_of_perm_of_sortedKey (fun tc => tokenDebugRepr tc.1) ?_ ?_ ?_ ?_
  · exact (List.perm_insertionSort _ _).trans
      (hp.trans (List.perm_insertionSort _ _).symm)
  · exact List.sorted_insertionSort tokenLe x
  · exact List.sorted_insertionSort tokenLe y
  · exact ((List.perm_insertionSort tokenLe x).map _).nodup_iff.mpr hndx

theorem lookup_some_of_mem_keys {K V : Type} [DecidableEq K] {m : Fmap K V}
    {k : K} (h : k ∈ Fmap.keys m) : ∃ v, Fmap.lookup m k = some v := by
  cases hl : Fmap.lookup m k with
  | some v => exact ⟨v, rfl⟩
  | none => exact absurd h (Fmap.lookup_eq_none_iff.mp hl)

/-- C5: `Marking::hash` is a function of marking contents only: two
well-formed markings with identical place→multiset contents — regardless of
the internal storage order produced by their construction — feed the hasher
the same stream and therefore hash to the same value. -/
theorem marking_hash_content_invariant (a b : Marking)
    (hwa : Marking.WF a) (hwb : Marking.WF b) (h : MarkingEquivC a b) :
    Marking.hash a = Marking.hash b := by
  have hstream : Marking.hashStream a = Marking.hashStream b := by
    unfold Marking.hashStream
    rw [← sortedPlaces_eq_of_perm h.1]
    refine congrArg List.flatten (List.map_congr_left ?_)
    intro p hp
    have hpa : p ∈ Fmap.keys a := by
      unfold sortedPlaces at hp
      exact (List.perm_insertionSort _ _).mem_iff.mp hp
    have hpb : p ∈ Fmap.keys b := h.1.mem_iff.mp hpa
    obtain ⟨ms1, hm1⟩ := lookup_some_of_mem_keys hpa
    obtain ⟨ms2, hm2⟩ := lookup_some_of_mem_keys hpb
    have hperm := h.2 p hpa ms1 ms2 hm1 hm2
    have hnd1 : ((Fmap.keys ms1).map tokenDebugRepr).Nodup :=
      (hwa.2 (p, ms1) (Fmap.lookup_mem hm1)).map tokenDebugRepr_injective
    unfold placeStream
    rw [hm1, hm2]
    simp only [Option.getD_some]
    rw [sortedTokens_eq_of_perm hperm hnd1]
  unfold Marking.hash
  rw [hstream]

/-- Witness for C5: two markings with the same contents inserted in different
orders (both at the place level and inside the shared multiset) hash
identically. -/
theorem marking_hash_content_invariant_witness :
    Marking.hash [("free", [(Token.Lock 1, 1), (Token.Lock 2, 3)]),
        ("held", [])] =
      Marking.hash [("held", []),
        ("free", [(Token.Lock 2, 3), (Token.Lock 1, 1)])] :=
  marking_hash_content_invariant _ _ (by decide) (by decide)
    ⟨by decide, by
      intro p hp ms1 ms2 h1 h2
      simp only [Fmap.keys, List.map_cons, List.map_nil, List.mem_cons,
        List.mem_singleton] at hp
      rcases hp with rfl | hp
      · simp only [Fmap.lookup, if_pos rfl] at h1 h2
        simp only [reduceIte] at h1 h2
        cases h1
        cases h2
        decide
      · rcases hp with rfl | hp
        · simp only [Fmap.lookup] at h1 h2
          simp only [reduceIte] at h1 h2
          cases h1
          cases h2
          decide
        · cases hp⟩

end Petri
